import Mathlib

/-! # Demo client / server (`quic/samples/demo`)

A shallow embedding of the callback code in `DemoHandler.h` (the server's
reply writer) and `DemoClient.h` (the client's byte counter and throughput
log), followed by the properties established about it.

Conventions of the embedding:

* `int` is a 32-bit two's-complement integer; every `int` result is reduced
  with `wrapInt`, the value the usual compilers produce on overflow.
* The transport (`QuicSocket`) is an external collaborator.  Its answers to
  `writeChain` are supplied by an arbitrary function `respond`, and the calls
  made on it are recorded in order.
* The `while` loop of `sendBytes` runs with an iteration budget; the result
  says whether the loop left through its condition or was still running.
-/

/-! ## Machine integers -/

/-- Largest `int`. -/
def INT_MAX : Int := 2147483647

/-- Smallest `int`. -/
def INT_MIN : Int := -2147483648

/-- Reduction of a mathematical integer to a 32-bit two's-complement `int`. -/
def wrapInt (x : Int) : Int := (x + 2147483648) % 4294967296 - 2147483648

/-- Reduction of a mathematical integer to a 64-bit two's-complement `int64_t`. -/
def wrapInt64 (x : Int) : Int :=
  (x + 9223372036854775808) % 18446744073709551616 - 9223372036854775808

/-- Reduction of a natural number to a `uint64_t`. -/
def wrapUInt64 (x : Nat) : Nat := x % 18446744073709551616

/-! ## `std::stoi` -/

/-- The two exceptions `std::stoi` can throw. -/
inductive StoiError
  | invalid_argument
  | out_of_range
  deriving DecidableEq, Repr

/-- The C locale `isspace`: space, `\t`, `\n`, `\v`, `\f`, `\r`. -/
def isspace (c : Char) : Bool :=
  c.toNat = 32 || (9 ≤ c.toNat && c.toNat ≤ 13)

/-- The C locale `isdigit`. -/
def isdigit (c : Char) : Bool :=
  48 ≤ c.toNat && c.toNat ≤ 57

/-- Value of a run of decimal digits, most significant first. -/
def digitsValue (ds : List Char) : Nat :=
  ds.foldl (fun acc c => acc * 10 + (c.toNat - 48)) 0

/-- Optional sign in front of the digits: whether it is `-`, and what follows it. -/
def stripSign : List Char → Bool × List Char
  | '-' :: rest => (true, rest)
  | '+' :: rest => (false, rest)
  | s => (false, s)

/-- `std::stoi(str)` with the default base 10 and no position argument: leading
white space is skipped, an optional sign is read, then the longest run of
digits; whatever follows the digits is ignored.  No digit at that place throws
`std::invalid_argument`, a value outside `int` throws `std::out_of_range`. -/
def stoi (str : List Char) : Except StoiError Int :=
  let (neg, rest) := stripSign (str.dropWhile isspace)
  let ds := rest.takeWhile isdigit
  if ds.isEmpty then .error .invalid_argument
  else
    let v : Int := if neg then -(digitsValue ds : Int) else (digitsValue ds : Int)
    if v < INT_MIN ∨ INT_MAX < v then .error .out_of_range else .ok v

/-- The decimal-ASCII text of a byte count: what the user passes as the `bytes`
argument of the client for a count `n`. -/
def encode (n : Nat) : List Char := Nat.toDigits 10 n

/-! ## The transport, as seen by the callbacks -/

/-- Stream identifier (`quic::StreamId`). -/
abbrev StreamId := Nat

/-- The bytes of a non-null `folly::IOBuf` chain, in order (`quic::Buf`). -/
abbrev Buf := List Char

/-- Stand-in for a byte of a buffer that was allocated and never written. -/
def unspecifiedByte : Char := Char.ofNat 0

/-- `folly::IOBuf::create(n)` followed by `append(n)`: a buffer of `n` bytes whose
contents are whatever the allocation holds. -/
def IOBuf.create (n : Nat) : Buf := List.replicate n unspecifiedByte

/-- `folly::IOBufQueue`: a null head, or the chain appended so far. -/
structure IOBufQueue where
  head : Option Buf
  deriving DecidableEq, Repr

/-- `IOBufQueue::append(buf)`; a null `buf` is ignored. -/
def IOBufQueue.append (q : IOBufQueue) (buf : Option Buf) : IOBufQueue :=
  match buf, q.head with
  | none, _ => q
  | some b, none => ⟨some b⟩
  | some b, some h => ⟨some (h ++ b)⟩

/-- `IOBufQueue::move()`: hands out the whole chain and leaves the queue empty. -/
def IOBufQueue.move (q : IOBufQueue) : Option Buf × IOBufQueue := (q.head, ⟨none⟩)

/-- `IOBufQueue::chainLength()`. -/
def IOBufQueue.chainLength (q : IOBufQueue) : Nat :=
  match q.head with
  | none => 0
  | some h => h.length

/-- `DemoHandler::StreamData`: the queue and the end-of-input flag. -/
structure StreamData where
  first : IOBufQueue
  second : Bool
  deriving DecidableEq, Repr

/-- What `writeChain` returns: an error, or the part of the buffer that was not
taken (null when all of it was). -/
inductive WriteResult
  | error
  | value (rest : Option Buf)
  deriving DecidableEq, Repr

/-- What the transport decides for one `writeChain` call: to fail it, or to take
the first `k` bytes of the buffer (all of it when `k` is not below its length). -/
inductive Decision
  | fail
  | accept (k : Nat)
  deriving DecidableEq, Repr

/-- One call made on the socket by the handler. -/
inductive SockCall
  | writeChain (id : StreamId) (buf : Buf) (eof cork : Bool) (res : WriteResult)
  | notifyPendingWriteOnStream (id : StreamId)
  deriving DecidableEq, Repr

/-- The socket: `respond k len` is the transport's decision for the `k`-th
`writeChain` call (counted from 0) when it offers `len` bytes; `calls` are the
calls made so far, oldest first. -/
structure QuicSocket where
  respond : Nat → Nat → Decision
  calls : List SockCall

/-- Whether a call is a `writeChain`. -/
def SockCall.isWrite : SockCall → Bool
  | .writeChain _ _ _ _ _ => true
  | .notifyPendingWriteOnStream _ => false

/-- Number of `writeChain` calls in a trace. -/
def writeCount (calls : List SockCall) : Nat := (calls.filter SockCall.isWrite).length

/-- `sock->writeChain(id, buf, eof, cork, nullptr)`. -/
def QuicSocket.writeChain (sock : QuicSocket) (id : StreamId) (buf : Buf) (eof cork : Bool) :
    QuicSocket × WriteResult :=
  let res : WriteResult :=
    match sock.respond (writeCount sock.calls) buf.length with
    | .fail => .error
    | .accept k => if buf.length ≤ k then .value none else .value (some (buf.drop k))
  ({ sock with calls := sock.calls ++ [.writeChain id buf eof cork res] }, res)

/-- `sock->notifyPendingWriteOnStream(id, this)`. -/
def QuicSocket.notifyPendingWriteOnStream (sock : QuicSocket) (id : StreamId) : QuicSocket :=
  { sock with calls := sock.calls ++ [.notifyPendingWriteOnStream id] }

/-- A socket on which nothing has been called yet. -/
def QuicSocket.fresh (respond : Nat → Nat → Decision) : QuicSocket := ⟨respond, []⟩

/-- The transport that takes every offered buffer in full. -/
def acceptAll : Nat → Nat → Decision := fun _ len => .accept len

/-- What the `read` of a stream returns: an error, or (non-null) data with the
end-of-input flag. -/
inductive ReadResult
  | error
  | value (data : Buf) (eof : Bool)
  deriving DecidableEq, Repr

/-! ### Reading a trace -/

/-- The `writeChain` offers of a trace: length, `eof` and `cork` of each. -/
def offers : List SockCall → List (Nat × Bool × Bool)
  | [] => []
  | .writeChain _ buf eof cork _ :: cs => (buf.length, eof, cork) :: offers cs
  | .notifyPendingWriteOnStream _ :: cs => offers cs

/-- Bytes the transport took in one call. -/
def SockCall.accepted : SockCall → Nat
  | .writeChain _ buf _ _ (.value none) => buf.length
  | .writeChain _ buf _ _ (.value (some rest)) => buf.length - rest.length
  | .writeChain _ _ _ _ .error => 0
  | .notifyPendingWriteOnStream _ => 0

/-- Bytes the transport took over a whole trace. -/
def acceptedBytes (calls : List SockCall) : Nat := (calls.map SockCall.accepted).sum

/-! ## `DemoHandler` -/

/-- How a callback ended. -/
inductive Outcome (σ : Type)
  | returned (st : σ)
  | terminated (st : σ)
  | running (st : σ)

/-- The state a callback ended in. -/
def Outcome.state {σ : Type} : Outcome σ → σ
  | .returned st => st
  | .terminated st => st
  | .running st => st

/-- Whether the callback returned to its caller. -/
def Outcome.isReturned {σ : Type} : Outcome σ → Bool
  | .returned _ => true
  | _ => false

/-- Variables of the `while` loop of `sendBytes`. -/
structure SendState where
  sent : Int
  data : StreamData
  sock : QuicSocket

/-- The three-way handling of a `writeChain` result (identical in both branches
of the loop): an error is logged; a returned remainder is appended to the
stream's queue and a pending-write notification is requested; a full accept is
logged. -/
def afterWrite (id : StreamId) (sent : Int) (data : StreamData) (sock : QuicSocket)
    (res : WriteResult) : SendState :=
  match res with
  | .error => ⟨sent, data, sock⟩
  | .value (some rest) =>
    ⟨sent, { data with first := data.first.append (some rest) },
      sock.notifyPendingWriteOnStream id⟩
  | .value none => ⟨sent, data, sock⟩

/-- One pass through the body of the `while (sent < bytes)` loop. -/
def sendStep (bufSize : Nat) (bytes : Int) (id : StreamId) (st : SendState) : SendState :=
  if wrapInt (st.sent + bufSize) > bytes then
    let lastBytes := wrapInt (bytes - st.sent)
    let buf := IOBuf.create lastBytes.toNat
    let (sock, res) := st.sock.writeChain id buf true false
    afterWrite id (wrapInt (st.sent + lastBytes)) st.data sock res
  else
    let buf := IOBuf.create bufSize
    let (sock, res) := st.sock.writeChain id buf false true
    afterWrite id (wrapInt (st.sent + bufSize)) st.data sock res

/-- The loop `while (sent < bytes) { ... }`, run for at most `fuel` passes.  The
flag tells whether the loop was left through its condition. -/
def sendLoop (bufSize : Nat) (bytes : Int) (id : StreamId) :
    Nat → SendState → SendState × Bool
  | 0, st => (st, decide (¬ st.sent < bytes))
  | fuel + 1, st =>
    if st.sent < bytes then sendLoop bufSize bytes id fuel (sendStep bufSize bytes id st)
    else (st, true)

/-- `DemoHandler::sendBytes(id, data)`.  `bufSize` is the local of that name
(`4 * kDefaultUDPReadBufferSize`, a constant declared outside these files).
`data` is passed by reference, so the updated value is returned with the socket.
An exception of `std::stoi`, or the dereference of the null chain of an empty
queue, ends the process (the callers are `noexcept`). -/
def DemoHandler.sendBytes (bufSize fuel : Nat) (sock : QuicSocket) (id : StreamId)
    (data : StreamData) : Outcome (QuicSocket × StreamData) :=
  if !data.second then
    -- only echo when eof is present
    .returned (sock, data)
  else
    let (value, q) := data.first.move
    let data : StreamData := { data with first := q }
    match value with
    | none => .terminated (sock, data)
    | some str =>
      match stoi str with
      | .error _ => .terminated (sock, data)
      | .ok parsed =>
        let bytes := wrapInt (parsed * 10)
        match sendLoop bufSize bytes id fuel ⟨0, data, sock⟩ with
        | (st, false) => .running (st.sock, st.data)
        | (st, true) =>
          -- echo is done, clear EOF
          .returned (st.sock, { st.data with second := false })

/-- The handler object: its socket, the per-stream input map, and the chunk size
used by `sendBytes`. -/
structure DemoHandler where
  sock : QuicSocket
  input_ : StreamId → Option StreamData
  bufSize : Nat

/-- `input_[id]`, default-constructed when absent. -/
def DemoHandler.inputAt (h : DemoHandler) (id : StreamId) : StreamData :=
  (h.input_ id).getD ⟨⟨none⟩, false⟩

/-- Store `data` as `input_[id]`. -/
def DemoHandler.setInput (h : DemoHandler) (id : StreamId) (data : StreamData) : DemoHandler :=
  { h with input_ := fun j => if j = id then some data else h.input_ j }

/-- Carry the result of `sendBytes(id, input_[id])` back into the handler. -/
def DemoHandler.store (h : DemoHandler) (id : StreamId)
    (r : Outcome (QuicSocket × StreamData)) : Outcome DemoHandler :=
  match r with
  | .returned (sock, data) => .returned { (h.setInput id data) with sock := sock }
  | .terminated (sock, data) => .terminated { (h.setInput id data) with sock := sock }
  | .running (sock, data) => .running { (h.setInput id data) with sock := sock }

/-- `DemoHandler::readAvailable(id)`; `res` is what `sock->read(id, 0)` returns. -/
def DemoHandler.readAvailable (fuel : Nat) (h : DemoHandler) (id : StreamId) (res : ReadResult) :
    Outcome DemoHandler :=
  match res with
  | .error => .returned h
  | .value data eof =>
    let entry : StreamData := (h.input_ id).getD ⟨⟨none⟩, false⟩
    let entry : StreamData := ⟨entry.first.append (some data), eof⟩
    let h := h.setInput id entry
    if eof then h.store id (DemoHandler.sendBytes h.bufSize fuel h.sock id entry)
    else .returned h

/-- `DemoHandler::onStreamWriteReady(id, maxToSend)`. -/
def DemoHandler.onStreamWriteReady (fuel : Nat) (h : DemoHandler) (id : StreamId)
    (_maxToSend : Nat) : Outcome DemoHandler :=
  let entry := h.inputAt id
  (h.setInput id entry).store id (DemoHandler.sendBytes h.bufSize fuel h.sock id entry)

/-- A handler for a new connection. -/
def DemoHandler.new (respond : Nat → Nat → Decision) (bufSize : Nat) : DemoHandler :=
  ⟨QuicSocket.fresh respond, fun _ => none, bufSize⟩

/-- The writable signal delivered `k` times in a row for stream `id`. -/
def DemoHandler.writeReadyTimes (fuel : Nat) (id : StreamId) : Nat → DemoHandler → DemoHandler
  | 0, h => h
  | k + 1, h => DemoHandler.writeReadyTimes fuel id k (h.onStreamWriteReady fuel id 0).state

/-- The lengths of the buffers offered to `writeChain` in a trace. -/
def offeredLengths (calls : List SockCall) : List Nat := (offers calls).map (fun o => o.1)

/-- Whether the callback ended the process (uncaught exception or null
dereference). -/
def Outcome.isTerminated {σ : Type} : Outcome σ → Bool
  | .terminated _ => true
  | _ => false

/-- The buffers handed to `writeChain` in a trace. -/
def writtenBufs : List SockCall → List Buf
  | [] => []
  | .writeChain _ buf _ _ _ :: cs => buf :: writtenBufs cs
  | .notifyPendingWriteOnStream _ :: cs => writtenBufs cs

/-- The offers the loop of `sendBytes` makes, and whether it leaves through its
condition within `fuel` passes, as a function of the counters alone.  The loop
is shown below to follow this plan under every transport. -/
def chunkPlan (bufSize : Nat) (bytes : Int) : Nat → Int → List (Nat × Bool × Bool) × Bool
  | 0, sent => ([], decide (¬ sent < bytes))
  | fuel + 1, sent =>
    if sent < bytes then
      if wrapInt (sent + bufSize) > bytes then
        let r := chunkPlan bufSize bytes fuel (wrapInt (sent + wrapInt (bytes - sent)))
        (((wrapInt (bytes - sent)).toNat, true, false) :: r.1, r.2)
      else
        let r := chunkPlan bufSize bytes fuel (wrapInt (sent + bufSize))
        ((bufSize, false, true) :: r.1, r.2)
    else ([], true)

/-! ## `DemoClient` -/

/-- The two throughput lines the client logs. -/
inductive LogLine
  /-- The completion line: `start`, `stop`, `bytes`, and the two operands of the
  division that gives `rate` (`total_bytes * 8 * 1000` over
  `1024 * 1024 * elapsed`), kept as exact integers. -/
  | rate (lat plr : List Char) (start stop bytes rateNum rateDen : Int)
  /-- The line with `start: -1  stop: -1  bytes: -1  rate: -1`. -/
  | unmeasured (lat plr : List Char)
  deriving DecidableEq, Repr

/-- What `readAvailable` of the client looks at in the result of
`quicClient_->read(streamId, 0)`: whether it is an error, and otherwise
`copy->length()`, the length of the head buffer of the data. -/
inductive ClientRead
  | error
  | data (length : Nat)
  deriving DecidableEq, Repr

/-- The client: the file-scope variables of `DemoClient.h` (`_bytes_read`,
`_start_time`, `connection_ended`, `connection_failed`, `completed`, `sum`), the
members of the class, and the throughput lines logged so far. -/
structure DemoClient where
  _bytes_read : StreamId → Option Int
  _start_time : StreamId → Option Int
  connection_ended : Bool
  connection_failed : Bool
  completed : Bool
  sum : Int
  quicClient_ : QuicSocket
  pendingOutput_ : StreamId → Option IOBufQueue
  recvOffsets_ : StreamId → Option Nat
  lat_ : List Char
  plr_ : List Char
  bytes_ : List Char
  bytes_val_ : Int
  log : List LogLine

/-- `m[k] = v` on a map. -/
def mapSet {α : Type} (m : StreamId → Option α) (k : StreamId) (v : α) : StreamId → Option α :=
  fun j => if j = k then some v else m j

/-- `m.erase(k)` on a map. -/
def mapErase {α : Type} (m : StreamId → Option α) (k : StreamId) : StreamId → Option α :=
  fun j => if j = k then none else m j

/-- The members and the file-scope variables as the constructor leaves them,
`bytes_val` being what `std::stoi(bytes_)` returned. -/
def DemoClient.init (lat plr bytes : List Char) (bytes_val : Int)
    (respond : Nat → Nat → Decision) : DemoClient :=
  { _bytes_read := fun _ => none, _start_time := fun _ => none,
    connection_ended := false, connection_failed := false, completed := false, sum := 0,
    quicClient_ := QuicSocket.fresh respond, pendingOutput_ := fun _ => none,
    recvOffsets_ := fun _ => none, lat_ := lat, plr_ := plr, bytes_ := bytes,
    bytes_val_ := bytes_val, log := [] }

/-- The constructor `DemoClient(lat, plr, bytes, host, port)`; it fails when
`std::stoi(bytes_)` throws. -/
def DemoClient.new (lat plr bytes : List Char) (respond : Nat → Nat → Decision) :
    Except StoiError DemoClient :=
  match stoi bytes with
  | .error e => .error e
  | .ok v => .ok (DemoClient.init lat plr bytes v respond)

/-- `DemoClient::readAvailable(streamId)`; `current_time` is what `getTime()`
returns in the completion branch. -/
def DemoClient.readAvailable (c : DemoClient) (streamId : StreamId) (readData : ClientRead)
    (current_time : Int) : Outcome DemoClient :=
  match readData with
  | .error =>
    -- the error is logged and the failed result is dereferenced all the same
    .terminated c
  | .data length =>
    let recvOffsets : StreamId → Option Nat :=
      match c.recvOffsets_ streamId with
      | none => mapSet c.recvOffsets_ streamId (wrapUInt64 length)
      | some off => mapSet c.recvOffsets_ streamId (wrapUInt64 (off + length))
    let sum := wrapInt (c.sum + length)
    let total_bytes : Int :=
      match c._bytes_read streamId with
      | some v => v
      | none => 0
    let total_bytes := wrapInt (total_bytes + length)
    let bytes_read := mapSet c._bytes_read streamId total_bytes
    if total_bytes ≥ c.bytes_val_ then
      let start := (c._start_time streamId).getD 0
      let elapsed := wrapInt64 (current_time - start)
      .returned { c with
        recvOffsets_ := recvOffsets, sum := sum, completed := true,
        log := c.log ++ [.rate c.lat_ c.plr_ start current_time total_bytes
                          (total_bytes * 8 * 1000) (1024 * 1024 * elapsed)],
        _bytes_read := mapErase bytes_read streamId,
        _start_time := mapErase c._start_time streamId }
    else
      .returned { c with recvOffsets_ := recvOffsets, sum := sum, _bytes_read := bytes_read }

/-- `DemoClient::onConnectionEnd()`. -/
def DemoClient.onConnectionEnd (c : DemoClient) : DemoClient :=
  let c := { c with connection_ended := true }
  if !c.completed then { c with log := c.log ++ [.unmeasured c.lat_ c.plr_] } else c

/-- `DemoClient::onConnectionError(error)`. -/
def DemoClient.onConnectionError (c : DemoClient) : DemoClient :=
  let c := { c with connection_failed := true }
  if !c.completed then { c with log := c.log ++ [.unmeasured c.lat_ c.plr_] } else c

/-- `DemoClient::sendMessage(id, data)` with `data = pendingOutput_[id]`. -/
def DemoClient.sendMessage (c : DemoClient) (id : StreamId) : Outcome DemoClient :=
  let data : IOBufQueue := (c.pendingOutput_ id).getD ⟨none⟩
  let (message, data) := data.move
  let c := { c with pendingOutput_ := mapSet c.pendingOutput_ id data }
  match message with
  | none => .terminated c
  | some msg =>
    let (sock, res) := c.quicClient_.writeChain id msg true false
    let c := { c with quicClient_ := sock }
    match res with
    | .error => .returned c
    | .value (some rest) =>
      .returned { c with
        pendingOutput_ := mapSet c.pendingOutput_ id (data.append (some rest)),
        quicClient_ := sock.notifyPendingWriteOnStream id }
    | .value none =>
      -- sent whole message
      .returned { c with pendingOutput_ := mapErase c.pendingOutput_ id }

/-- `DemoClient::onStreamWriteReady(id, maxToSend)`. -/
def DemoClient.onStreamWriteReady (c : DemoClient) (id : StreamId) (_maxToSend : Nat) :
    Outcome DemoClient :=
  c.sendMessage id

/-- The second event-base task of `DemoClient::start()`: the new stream
`streamId` gets its start time, `bytes_` is queued and sent. -/
def DemoClient.start (c : DemoClient) (streamId : StreamId) (now : Int) : Outcome DemoClient :=
  let c := { c with _start_time := mapSet c._start_time streamId now }
  let q : IOBufQueue := (c.pendingOutput_ streamId).getD ⟨none⟩
  let c := { c with pendingOutput_ := mapSet c.pendingOutput_ streamId (q.append (some c.bytes_)) }
  c.sendMessage streamId

/-- Feed a list of successful deliveries (`copy->length()` and the clock value
of each) to `readAvailable` on one stream, in order. -/
def DemoClient.deliver (c : DemoClient) (streamId : StreamId) : List (Nat × Int) → DemoClient
  | [] => c
  | (len, now) :: rest =>
    DemoClient.deliver (c.readAvailable streamId (.data len) now).state streamId rest

/-- Number of completion lines in a log. -/
def completions : List LogLine → Nat
  | [] => 0
  | .rate _ _ _ _ _ _ _ :: ls => completions ls + 1
  | .unmeasured _ _ :: ls => completions ls

/-- The value `readAvailable` starts from for a stream: `_bytes_read[streamId]`
when the stream has an entry, 0 otherwise. -/
def DemoClient.counted (c : DemoClient) (streamId : StreamId) : Int :=
  match c._bytes_read streamId with
  | some v => v
  | none => 0

/-- The `bytes` field of a completion line. -/
def LogLine.reportedBytes : LogLine → Option Int
  | .rate _ _ _ _ bytes _ _ => some bytes
  | .unmeasured _ _ => none

/-- Sum of the lengths of a list of deliveries. -/
def deliveredTotal (ds : List (Nat × Int)) : Nat := (ds.map (fun d => d.1)).sum

set_option maxRecDepth 8192

/-! ### Facts about `stoi` -/

theorem digitChar_isdigit (d : Nat) (h : d < 10) :
    isdigit (Nat.digitChar d) = true ∧ (Nat.digitChar d).toNat - 48 = d := by
  interval_cases d <;> decide

theorem digitChar_not_isspace (d : Nat) (h : d < 10) :
    isspace (Nat.digitChar d) = false ∧ Nat.digitChar d ≠ '-' ∧ Nat.digitChar d ≠ '+' := by
  interval_cases d <;> decide

/-- Folding the digit values over `toDigitsCore` output continues from `n`. -/
theorem foldl_toDigitsCore (fuel : Nat) : ∀ (n : Nat) (ds : List Char), n < fuel →
    (Nat.toDigitsCore 10 fuel n ds).foldl (fun acc c => acc * 10 + (c.toNat - 48)) 0
      = ds.foldl (fun acc c => acc * 10 + (c.toNat - 48)) n := by
  induction fuel with
  | zero => intro n ds h; omega
  | succ f ih =>
    intro n ds h
    have hd := (digitChar_isdigit (n % 10) (Nat.mod_lt _ (by decide))).2
    unfold Nat.toDigitsCore
    by_cases h0 : n / 10 = 0
    · simp only [h0, if_true, List.foldl_cons, hd]
      congr 1
      omega
    · simp only [h0, if_false]
      rw [ih (n / 10) _ (by omega)]
      simp only [List.foldl_cons, hd]
      congr 1
      omega

/-- Every character produced by `toDigitsCore` in base 10 is a digit, given that
the accumulator holds digits only. -/
theorem all_isdigit_toDigitsCore (fuel : Nat) : ∀ (n : Nat) (ds : List Char),
    (∀ c ∈ ds, isdigit c = true) →
    ∀ c ∈ Nat.toDigitsCore 10 fuel n ds, isdigit c = true := by
  induction fuel with
  | zero => intro n ds h; simpa [Nat.toDigitsCore] using h
  | succ f ih =>
    intro n ds h
    have hd := (digitChar_isdigit (n % 10) (Nat.mod_lt _ (by decide))).1
    have hcons : ∀ c ∈ Nat.digitChar (n % 10) :: ds, isdigit c = true := by
      intro c hc
      rcases List.mem_cons.1 hc with rfl | hc
      · exact hd
      · exact h c hc
    unfold Nat.toDigitsCore
    by_cases h0 : n / 10 = 0
    · simpa only [h0, if_true] using hcons
    · simpa only [h0, if_false] using ih (n / 10) _ hcons

/-- The first character of `toDigitsCore` output is a digit character. -/
theorem toDigitsCore_head (fuel : Nat) : ∀ (n : Nat) (ds : List Char),
    (∃ d tl, d < 10 ∧ ds = Nat.digitChar d :: tl) ∨ 0 < fuel →
    ∃ d tl, d < 10 ∧ Nat.toDigitsCore 10 fuel n ds = Nat.digitChar d :: tl := by
  induction fuel with
  | zero =>
    intro n ds h
    rcases h with h | h
    · simpa [Nat.toDigitsCore] using h
    · omega
  | succ f ih =>
    intro n ds _
    unfold Nat.toDigitsCore
    by_cases h0 : n / 10 = 0
    · exact ⟨n % 10, ds, Nat.mod_lt _ (by decide), by simp only [h0, if_true]⟩
    · simp only [h0, if_false]
      exact ih (n / 10) _ (Or.inl ⟨n % 10, ds, Nat.mod_lt _ (by decide), rfl⟩)

/-- `stoi` reads back the decimal text of every count that fits an `int`. -/
theorem stoi_encode (n : Nat) (h : (n : Int) ≤ INT_MAX) : stoi (encode n) = .ok (n : Int) := by
  obtain ⟨d, tl, hd, htl⟩ := toDigitsCore_head (n + 1) n [] (Or.inr (Nat.succ_pos n))
  have hall := all_isdigit_toDigitsCore (n + 1) n [] (by simp)
  have hval := foldl_toDigitsCore (n + 1) n [] (Nat.lt_succ_self n)
  have hsp := digitChar_not_isspace d hd
  have hdrop : (encode n).dropWhile isspace = encode n := by
    unfold encode Nat.toDigits
    rw [htl, List.dropWhile_cons, hsp.1]
    simp
  have hsign : stripSign (encode n) = (false, encode n) := by
    unfold encode Nat.toDigits
    rw [htl]
    unfold stripSign
    split
    · rename_i heq
      exact absurd (List.cons.inj heq).1 hsp.2.1
    · rename_i heq
      exact absurd (List.cons.inj heq).1 hsp.2.2
    · rfl
  have htake : (encode n).takeWhile isdigit = encode n := by
    rw [List.takeWhile_eq_self_iff]
    exact hall
  have hne : (encode n).isEmpty = false := by
    unfold encode Nat.toDigits
    rw [htl]
    rfl
  have hv : digitsValue (encode n) = n := by
    unfold digitsValue encode Nat.toDigits
    simpa using hval
  unfold stoi
  simp only [hdrop, hsign, htake, hne, hv]
  unfold INT_MAX at h
  unfold INT_MIN INT_MAX
  simp only [Bool.false_eq_true, if_false]
  rw [if_neg]
  omega



/-! ### Facts about the machine integers -/

theorem wrapInt_id (x : Int) (h1 : -2147483648 ≤ x) (h2 : x ≤ 2147483647) : wrapInt x = x := by
  unfold wrapInt
  omega

/-! ### The loop of `sendBytes` follows `chunkPlan` -/

theorem offers_append (a b : List SockCall) : offers (a ++ b) = offers a ++ offers b := by
  induction a with
  | nil => rfl
  | cons x xs ih =>
    cases x with
    | writeChain id buf eof cork res => simp [offers, ih]
    | notifyPendingWriteOnStream id => simp [offers, ih]

theorem afterWrite_sent (id : StreamId) (sent : Int) (data : StreamData) (sock : QuicSocket)
    (res : WriteResult) : (afterWrite id sent data sock res).sent = sent := by
  unfold afterWrite
  split <;> rfl

theorem afterWrite_offers (id : StreamId) (sent : Int) (data : StreamData) (sock : QuicSocket)
    (res : WriteResult) :
    offers (afterWrite id sent data sock res).sock.calls = offers sock.calls := by
  unfold afterWrite
  split
  · rfl
  · simp [QuicSocket.notifyPendingWriteOnStream, offers_append, offers]
  · rfl

theorem writeChain_offers (sock : QuicSocket) (id : StreamId) (buf : Buf) (eof cork : Bool) :
    offers (sock.writeChain id buf eof cork).1.calls
      = offers sock.calls ++ [(buf.length, eof, cork)] := by
  simp [QuicSocket.writeChain, offers_append, offers]

theorem create_length (n : Nat) : (IOBuf.create n).length = n := by
  simp [IOBuf.create]

theorem sendStep_sent (bufSize : Nat) (bytes : Int) (id : StreamId) (st : SendState) :
    (sendStep bufSize bytes id st).sent =
      if wrapInt (st.sent + bufSize) > bytes then wrapInt (st.sent + wrapInt (bytes - st.sent))
      else wrapInt (st.sent + bufSize) := by
  unfold sendStep
  split <;> simp [afterWrite_sent]

theorem sendStep_offers (bufSize : Nat) (bytes : Int) (id : StreamId) (st : SendState) :
    offers (sendStep bufSize bytes id st).sock.calls =
      offers st.sock.calls ++
        [if wrapInt (st.sent + bufSize) > bytes then ((wrapInt (bytes - st.sent)).toNat, true, false)
         else (bufSize, false, true)] := by
  unfold sendStep
  split <;> simp [afterWrite_offers, writeChain_offers, create_length]

/-- Under every transport the loop makes exactly the offers of `chunkPlan`, and
leaves through its condition exactly when the plan does. -/
theorem sendLoop_plan (bufSize : Nat) (bytes : Int) (id : StreamId) (fuel : Nat) :
    ∀ st : SendState,
      offers (sendLoop bufSize bytes id fuel st).1.sock.calls
        = offers st.sock.calls ++ (chunkPlan bufSize bytes fuel st.sent).1
      ∧ (sendLoop bufSize bytes id fuel st).2 = (chunkPlan bufSize bytes fuel st.sent).2 := by
  induction fuel with
  | zero => intro st; simp [sendLoop, chunkPlan]
  | succ f ih =>
    intro st
    unfold sendLoop chunkPlan
    by_cases hlt : st.sent < bytes
    · simp only [hlt, if_true]
      have h := ih (sendStep bufSize bytes id st)
      rw [sendStep_sent, sendStep_offers] at h
      by_cases hbr : wrapInt (st.sent + bufSize) > bytes
      · simp only [hbr, if_true] at h ⊢
        simpa using h
      · simp only [hbr, if_false] at h ⊢
        simpa using h
    · simp [hlt]

/-- The offers of `sendBytes` on a request text that `stoi` reads as `v`. -/
theorem sendBytes_plan (bufSize fuel : Nat) (sock : QuicSocket) (id : StreamId)
    (str : List Char) (v : Int) (hv : stoi str = .ok v) :
    offers (DemoHandler.sendBytes bufSize fuel sock id ⟨⟨some str⟩, true⟩).state.1.calls
        = offers sock.calls ++ (chunkPlan bufSize (wrapInt (v * 10)) fuel 0).1
      ∧ (DemoHandler.sendBytes bufSize fuel sock id ⟨⟨some str⟩, true⟩).isReturned
        = (chunkPlan bufSize (wrapInt (v * 10)) fuel 0).2 := by
  have h := sendLoop_plan bufSize (wrapInt (v * 10)) id fuel ⟨0, ⟨⟨none⟩, true⟩, sock⟩
  unfold DemoHandler.sendBytes
  simp only [IOBufQueue.move, hv, Bool.not_true, Bool.false_eq_true, if_false]
  generalize sendLoop bufSize (wrapInt (v * 10)) id fuel ⟨0, ⟨⟨none⟩, true⟩, sock⟩ = r at h ⊢
  obtain ⟨st, b⟩ := r
  cases b <;> simpa [Outcome.state, Outcome.isReturned] using h

theorem chunkPlan_done (bufSize : Nat) (bytes : Int) (fuel : Nat) (sent : Int)
    (h : ¬ sent < bytes) : chunkPlan bufSize bytes fuel sent = ([], true) := by
  cases fuel with
  | zero => simp [chunkPlan, h]
  | succ f => simp [chunkPlan, h]

/-- Closed form of the plan when no `int` operation of the loop overflows. -/
theorem chunkPlan_closed (c total : Nat) (hc : 1 ≤ c) (hfit : ((total + c : Nat) : Int) ≤ INT_MAX)
    (fuel : Nat) : ∀ sent : Nat, sent ≤ total → (total - sent) / c + 1 ≤ fuel →
      chunkPlan c (total : Int) fuel (sent : Int)
        = (List.replicate ((total - sent) / c) (c, false, true)
            ++ (if (total - sent) % c = 0 then [] else [((total - sent) % c, true, false)]),
           true) := by
  unfold INT_MAX at hfit
  induction fuel with
  | zero => intro sent _ h; exact absurd h (Nat.not_succ_le_zero _)
  | succ f ih =>
    intro sent hle hfuel
    by_cases hlt : sent < total
    · have hlt' : (sent : Int) < (total : Int) := by exact_mod_cast hlt
      have hw : wrapInt ((sent : Int) + (c : Int)) = (sent : Int) + (c : Int) := by
        apply wrapInt_id <;> omega
      unfold chunkPlan
      simp only [hlt', if_true, hw]
      by_cases hbr : (sent : Int) + (c : Int) > (total : Int)
      · have hr : total - sent < c := by omega
        have hw2 : wrapInt ((total : Int) - (sent : Int)) = (total : Int) - (sent : Int) := by
          apply wrapInt_id <;> omega
        have hw3 : wrapInt ((sent : Int) + ((total : Int) - (sent : Int))) = (total : Int) := by
          rw [wrapInt_id] <;> omega
        have hnat : ((total : Int) - (sent : Int)).toNat = total - sent := by omega
        simp only [hbr, if_true, hw2, hw3, hnat]
        rw [chunkPlan_done _ _ _ _ (lt_irrefl _)]
        rw [Nat.div_eq_of_lt hr, Nat.mod_eq_of_lt hr]
        have hne : total - sent ≠ 0 := by omega
        simp [hne]
      · have hge : c ≤ total - sent := by omega
        have hcast : (sent : Int) + (c : Int) = ((sent + c : Nat) : Int) := by push_cast; rfl
        have hsub : total - (sent + c) = total - sent - c := by omega
        have hdiv : (total - sent) / c = (total - sent - c) / c + 1 :=
          Nat.div_eq_sub_div (by omega) hge
        have hmod : (total - sent) % c = (total - sent - c) % c := Nat.mod_eq_sub_mod hge
        simp only [hbr, if_false]
        rw [hcast, ih (sent + c) (by omega) (by rw [hsub]; omega), hsub, hdiv, hmod]
        simp [List.replicate_succ]
    · have heq : sent = total := by omega
      subst heq
      rw [chunkPlan_done _ _ _ _ (lt_irrefl _)]
      simp

/-! ## The reply writer -/

/-- C2 (amended): for a request text that `stoi` reads as `n`, a chunk size
`c ≥ 1` with `10 * n + c` within `int`, and the transport that takes every buffer
in full, `sendBytes` returns once its loop has had `10n / c + 1` passes, and the
buffer lengths it offered are `10n / c` times `c` followed, when `10n mod c` is
not zero, by `10n mod c`; no length exceeds `c` and they add up to `10 * n`. -/
theorem sendBytes_chunking (n c : Nat) (str : List Char) (id : StreamId) (fuel : Nat)
    (hstr : stoi str = .ok (n : Int)) (hc : 1 ≤ c)
    (hfit : ((10 * n + c : Nat) : Int) ≤ INT_MAX) (hfuel : 10 * n / c + 1 ≤ fuel) :
    (DemoHandler.sendBytes c fuel (QuicSocket.fresh acceptAll) id
        ⟨⟨some str⟩, true⟩).isReturned = true
    ∧ offeredLengths (DemoHandler.sendBytes c fuel (QuicSocket.fresh acceptAll) id
        ⟨⟨some str⟩, true⟩).state.1.calls
      = List.replicate (10 * n / c) c ++ (if 10 * n % c = 0 then [] else [10 * n % c])
    ∧ (∀ len ∈ offeredLengths (DemoHandler.sendBytes c fuel (QuicSocket.fresh acceptAll) id
        ⟨⟨some str⟩, true⟩).state.1.calls, len ≤ c)
    ∧ (offeredLengths (DemoHandler.sendBytes c fuel (QuicSocket.fresh acceptAll) id
        ⟨⟨some str⟩, true⟩).state.1.calls).sum = 10 * n := by
  obtain ⟨hoff, hret⟩ := sendBytes_plan c fuel (QuicSocket.fresh acceptAll) id str n hstr
  have hbytes : wrapInt ((n : Int) * 10) = ((10 * n : Nat) : Int) := by
    unfold INT_MAX at hfit
    rw [wrapInt_id] <;> push_cast <;> omega
  have hplan := chunkPlan_closed c (10 * n) hc hfit fuel 0 (Nat.zero_le _) (by simpa using hfuel)
  rw [hbytes] at hoff hret
  simp only [Nat.cast_zero, Nat.sub_zero] at hplan
  rw [hplan] at hoff hret
  have hlen : offeredLengths (DemoHandler.sendBytes c fuel (QuicSocket.fresh acceptAll) id
        ⟨⟨some str⟩, true⟩).state.1.calls
      = List.replicate (10 * n / c) c ++ (if 10 * n % c = 0 then [] else [10 * n % c]) := by
    unfold offeredLengths
    rw [hoff]
    by_cases h0 : 10 * n % c = 0 <;> simp [QuicSocket.fresh, offers, h0]
  refine ⟨hret, hlen, ?_, ?_⟩
  · rw [hlen]
    intro len hmem
    rcases List.mem_append.1 hmem with h | h
    · exact le_of_eq (List.eq_of_mem_replicate h)
    · by_cases h0 : 10 * n % c = 0
      · simp [h0] at h
      · simp only [h0, if_false, List.mem_singleton] at h
        rw [h]
        exact le_of_lt (Nat.mod_lt _ (by omega))
  · rw [hlen]
    by_cases h0 : 10 * n % c = 0
    · simp only [h0, if_true, List.append_nil, List.sum_replicate, smul_eq_mul]
      have := Nat.div_add_mod (10 * n) c
      rw [h0] at this
      rw [Nat.mul_comm]
      simpa using this
    · simp only [h0, if_false, List.sum_append, List.sum_replicate, smul_eq_mul, List.sum_cons,
        List.sum_nil, Nat.add_zero]
      rw [Nat.mul_comm]
      exact Nat.div_add_mod (10 * n) c

/-- C2, the scenario of the specification: a total of 10000 bytes with chunks of
4096 is offered as 4096, 4096, 1808. -/
theorem sendBytes_chunking_witness :
    (DemoHandler.sendBytes 4096 3 (QuicSocket.fresh acceptAll) 0
        ⟨⟨some ['1', '0', '0', '0']⟩, true⟩).isReturned = true
    ∧ offeredLengths (DemoHandler.sendBytes 4096 3 (QuicSocket.fresh acceptAll) 0
        ⟨⟨some ['1', '0', '0', '0']⟩, true⟩).state.1.calls
      = List.replicate (10 * 1000 / 4096) 4096
          ++ (if 10 * 1000 % 4096 = 0 then [] else [10 * 1000 % 4096])
    ∧ (∀ len ∈ offeredLengths (DemoHandler.sendBytes 4096 3 (QuicSocket.fresh acceptAll) 0
        ⟨⟨some ['1', '0', '0', '0']⟩, true⟩).state.1.calls, len ≤ 4096)
    ∧ (offeredLengths (DemoHandler.sendBytes 4096 3 (QuicSocket.fresh acceptAll) 0
        ⟨⟨some ['1', '0', '0', '0']⟩, true⟩).state.1.calls).sum = 10 * 1000 :=
  sendBytes_chunking 1000 4096 ['1', '0', '0', '0'] 0 3 (by rfl) (by decide) (by decide)
    (by decide)

/-- One pass of the plan through the full-chunk branch. -/
theorem chunkPlan_step_full (c : Nat) (bytes : Int) (f : Nat) (sent : Int) (h1 : sent < bytes)
    (h2 : ¬ wrapInt (sent + c) > bytes) :
    chunkPlan c bytes (f + 1) sent
      = ((c, false, true) :: (chunkPlan c bytes f (wrapInt (sent + c))).1,
         (chunkPlan c bytes f (wrapInt (sent + c))).2) := by
  rw [chunkPlan]
  simp only [h1, if_true, h2, if_false]

/-- While `sent + bufSize` stays at or below the total, each pass offers one full
chunk: `k` such passes give `k` full chunks and leave the rest of the budget to
the plan from `sent + k * bufSize`. -/
theorem chunkPlan_full_prefix (c total : Nat) (htot : (total : Int) ≤ INT_MAX) (f k : Nat) :
    ∀ sent : Nat, 0 < c → sent + k * c ≤ total →
      chunkPlan c (total : Int) (k + f) (sent : Int)
        = (List.replicate k (c, false, true)
            ++ (chunkPlan c (total : Int) f ((sent + k * c : Nat) : Int)).1,
           (chunkPlan c (total : Int) f ((sent + k * c : Nat) : Int)).2) := by
  unfold INT_MAX at htot
  induction k with
  | zero => intro sent _ _; simp
  | succ k ih =>
    intro sent hc hle
    have hmul : (k + 1) * c = k * c + c := Nat.succ_mul k c
    have hsc : sent + c ≤ total := by
      have := Nat.zero_le (k * c)
      omega
    have hlt : (sent : Int) < (total : Int) := by omega
    have hw : wrapInt ((sent : Int) + (c : Int)) = ((sent + c : Nat) : Int) := by
      rw [wrapInt_id] <;> push_cast <;> omega
    have hbr : ¬ ((sent + c : Nat) : Int) > (total : Int) := by omega
    have hfuel : k + 1 + f = (k + f) + 1 := by omega
    have hnext : sent + c + k * c = sent + (k + 1) * c := by omega
    rw [hfuel, chunkPlan_step_full c _ _ _ hlt (by rw [hw]; exact hbr), hw,
      ih (sent + c) hc (by omega), hnext]
    simp [List.replicate_succ]

/-- C2 as stated fails: with `10 * n` within `int` but `sent + bufSize` beyond it
(`n = 214748364`, chunk size `2^30`), the test `sent + bufSize > bytes` wraps on
the second pass, a second full chunk is offered in place of the remainder
`1073741816`, and no number of passes yields the stated sequence. -/
theorem sendBytes_chunking_overflow :
    ((10 * 214748364 : Nat) : Int) ≤ INT_MAX
    ∧ stoi (encode 214748364) = .ok 214748364
    ∧ ∀ fuel : Nat,
        offeredLengths (DemoHandler.sendBytes 1073741824 fuel (QuicSocket.fresh acceptAll) 0
          ⟨⟨some (encode 214748364)⟩, true⟩).state.1.calls
        ≠ List.replicate (10 * 214748364 / 1073741824) 1073741824
            ++ (if 10 * 214748364 % 1073741824 = 0 then [] else [10 * 214748364 % 1073741824]) := by
  have hs : stoi (encode 214748364) = .ok 214748364 := stoi_encode 214748364 (by decide)
  refine ⟨by decide, hs, ?_⟩
  intro fuel
  have hoff := (sendBytes_plan 1073741824 fuel (QuicSocket.fresh acceptAll) 0
    (encode 214748364) 214748364 hs).1
  have hb : wrapInt (214748364 * 10) = 2147483640 := by decide
  have hrhs : List.replicate (10 * 214748364 / 1073741824) 1073741824
      ++ (if 10 * 214748364 % 1073741824 = 0 then [] else [10 * 214748364 % 1073741824])
      = [1073741824, 1073741816] := by norm_num
  rw [hrhs]
  unfold offeredLengths
  rw [hoff, hb]
  rcases fuel with _ | _ | f
  · simp [chunkPlan, QuicSocket.fresh, offers]
  · simp [chunkPlan, QuicSocket.fresh, offers, wrapInt]
  · simp [chunkPlan, QuicSocket.fresh, offers, wrapInt]

/-- C2 as stated fails at the chunk size of the source, `4 * 1500 = 6000`: the
request `214747801` gives a total of 2147478010 bytes, within `int`.  After
357913 full chunks `sent` is 2147478000 and 10 bytes remain, but
`sent + bufSize` is 2147484000, beyond `int`; wrapped, it is negative, the test
`sent + bufSize > bytes` fails, and a full chunk of 6000 bytes is offered where
the remainder of 10 bytes is due.  Under no number of passes are the offered
lengths 357913 times 6000 followed by 10. -/
theorem sendBytes_chunking_overflow_6000 :
    ((10 * 214747801 : Nat) : Int) ≤ INT_MAX
    ∧ stoi (encode 214747801) = .ok 214747801
    ∧ 10 * 214747801 / 6000 = 357913 ∧ 10 * 214747801 % 6000 = 10
    ∧ ∀ fuel : Nat,
        offeredLengths (DemoHandler.sendBytes 6000 fuel (QuicSocket.fresh acceptAll) 0
          ⟨⟨some (encode 214747801)⟩, true⟩).state.1.calls
        ≠ List.replicate 357913 6000 ++ [10] := by
  have hs : stoi (encode 214747801) = .ok 214747801 := stoi_encode 214747801 (by decide)
  refine ⟨by decide, hs, by norm_num, by norm_num, ?_⟩
  intro fuel
  have hoff := (sendBytes_plan 6000 fuel (QuicSocket.fresh acceptAll) 0
    (encode 214747801) 214747801 hs).1
  have hb : wrapInt (214747801 * 10) = ((2147478010 : Nat) : Int) := by decide
  have hnil : offers (QuicSocket.fresh acceptAll).calls = [] := rfl
  unfold offeredLengths
  rw [hoff, hb, hnil, List.nil_append]
  by_cases hf : fuel ≤ 357913
  · -- the loop is still running: fewer than 357914 offers were made
    have hp := chunkPlan_full_prefix 6000 2147478010 (by decide) 0 fuel 0 (by decide) (by omega)
    rw [Nat.add_zero, Nat.cast_zero] at hp
    rw [hp]
    intro heq
    have hl := congrArg List.length heq
    rw [List.length_map, List.length_append, List.length_replicate, List.length_append,
      List.length_replicate] at hl
    simp only [chunkPlan, List.length_nil, List.length_cons] at hl
    omega
  · -- pass 357914 offers a full chunk where 10 bytes are due
    obtain ⟨g, hg⟩ : ∃ g, fuel = 357913 + (g + 1) := ⟨fuel - 357914, by omega⟩
    have hp := chunkPlan_full_prefix 6000 2147478010 (by decide) (g + 1) 357913 0 (by decide)
      (by norm_num)
    have hsent : ((0 + 357913 * 6000 : Nat) : Int) = 2147478000 := by norm_num
    rw [hsent] at hp
    have hstep : (chunkPlan 6000 ((2147478010 : Nat) : Int) (g + 1) 2147478000).1
        = (6000, false, true)
          :: (chunkPlan 6000 ((2147478010 : Nat) : Int) g (wrapInt (2147478000 + 6000))).1 := by
      have h1 : (2147478000 : Int) < ((2147478010 : Nat) : Int) := by norm_num
      have h2 : ¬ wrapInt (2147478000 + ((6000 : Nat) : Int)) > ((2147478010 : Nat) : Int) := by
        decide
      rw [chunkPlan_step_full 6000 _ g _ h1 h2]
      rfl
    rw [Nat.cast_zero] at hp
    rw [hg, hp, hstep]
    intro heq
    rw [List.map_append, List.map_replicate] at heq
    have h3 := List.append_cancel_left heq
    simp at h3

/-- C3, at the failing inputs: with the chunk size 6000 and the request `600` the
whole reply of 6000 bytes leaves in one write whose end-of-stream flag is off,
and `sendBytes` returns without ever setting it; with the request `0` no write
is issued at all. -/
theorem sendBytes_divisible_total_no_eof :
    stoi ['6', '0', '0'] = .ok 600
    ∧ (DemoHandler.sendBytes 6000 4 (QuicSocket.fresh acceptAll) 0
        ⟨⟨some ['6', '0', '0']⟩, true⟩).isReturned = true
    ∧ offers (DemoHandler.sendBytes 6000 4 (QuicSocket.fresh acceptAll) 0
        ⟨⟨some ['6', '0', '0']⟩, true⟩).state.1.calls = [(6000, false, true)]
    ∧ stoi ['0'] = .ok 0
    ∧ (DemoHandler.sendBytes 6000 4 (QuicSocket.fresh acceptAll) 0
        ⟨⟨some ['0']⟩, true⟩).isReturned = true
    ∧ offers (DemoHandler.sendBytes 6000 4 (QuicSocket.fresh acceptAll) 0
        ⟨⟨some ['0']⟩, true⟩).state.1.calls = [] := by
  have h600 : stoi ['6', '0', '0'] = .ok 600 := rfl
  have h0 : stoi ['0'] = .ok 0 := rfl
  have p600 := sendBytes_plan 6000 4 (QuicSocket.fresh acceptAll) 0 ['6', '0', '0'] 600 h600
  have p0 := sendBytes_plan 6000 4 (QuicSocket.fresh acceptAll) 0 ['0'] 0 h0
  have e600 : chunkPlan 6000 (wrapInt (600 * 10)) 4 0 = ([(6000, false, true)], true) := by
    decide
  have e0 : chunkPlan 6000 (wrapInt (0 * 10)) 4 0 = ([], true) := by
    decide
  have hnil : offers (QuicSocket.fresh acceptAll).calls = [] := rfl
  rw [e600, hnil, List.nil_append] at p600
  rw [e0, hnil, List.nil_append] at p0
  exact ⟨h600, p600.2, p600.1, h0, p0.2, p0.1⟩

/-- A writable signal for a stream whose end-of-input flag is off changes
neither the socket nor the stream's entry. -/
theorem onStreamWriteReady_idle (fuel : Nat) (h : DemoHandler) (id : StreamId) (m : Nat)
    (hflag : (h.inputAt id).second = false) :
    (h.onStreamWriteReady fuel id m).state.sock = h.sock
    ∧ (h.onStreamWriteReady fuel id m).state.inputAt id = h.inputAt id := by
  unfold DemoHandler.inputAt at hflag
  unfold DemoHandler.onStreamWriteReady DemoHandler.sendBytes
  simp only [DemoHandler.inputAt, hflag, Bool.not_false, if_true, DemoHandler.store,
    Outcome.state, DemoHandler.setInput, true_and]
  simp

theorem writeReadyTimes_idle (fuel : Nat) (id : StreamId) (k : Nat) :
    ∀ h : DemoHandler, (h.inputAt id).second = false →
      (DemoHandler.writeReadyTimes fuel id k h).sock = h.sock
      ∧ (DemoHandler.writeReadyTimes fuel id k h).inputAt id = h.inputAt id := by
  induction k with
  | zero => intro h _; exact ⟨rfl, rfl⟩
  | succ k ih =>
    intro h hflag
    obtain ⟨hs, hi⟩ := onStreamWriteReady_idle fuel h id 0 hflag
    obtain ⟨hs2, hi2⟩ := ih (h.onStreamWriteReady fuel id 0).state (by rw [hi]; exact hflag)
    unfold DemoHandler.writeReadyTimes
    exact ⟨by rw [hs2, hs], by rw [hi2, hi]⟩

/-- C1, at the failing input: the request `1` asks for a reply of 10 bytes; the
transport takes 4 bytes of the only write and returns the other 6.  The handler
queues the 6 bytes and asks for the writable signal, but clears the stream's
end-of-input flag on leaving `sendBytes`, so every later `onStreamWriteReady`
returns at the first test of `sendBytes`: the 6 bytes stay in the queue, nothing
more is offered, and the transport has taken 4 bytes of the 10. -/
theorem returned_suffix_never_reoffered :
    offers ((DemoHandler.new (fun k len => if k = 0 then .accept 4 else .accept len)
        6000).readAvailable 2 0 (.value ['1'] true)).state.sock.calls = [(10, true, false)]
    ∧ ((DemoHandler.new (fun k len => if k = 0 then .accept 4 else .accept len)
        6000).readAvailable 2 0 (.value ['1'] true)).isReturned = true
    ∧ ((DemoHandler.new (fun k len => if k = 0 then .accept 4 else .accept len)
        6000).readAvailable 2 0 (.value ['1'] true)).state.input_ 0
        = some ⟨⟨some (IOBuf.create 6)⟩, false⟩
    ∧ ∀ fuel k : Nat,
        (DemoHandler.writeReadyTimes fuel 0 k
          ((DemoHandler.new (fun k len => if k = 0 then .accept 4 else .accept len)
            6000).readAvailable 2 0 (.value ['1'] true)).state).sock.calls
          = [.writeChain 0 (IOBuf.create 10) true false (.value (some (IOBuf.create 6))),
             .notifyPendingWriteOnStream 0]
        ∧ acceptedBytes (DemoHandler.writeReadyTimes fuel 0 k
          ((DemoHandler.new (fun k len => if k = 0 then .accept 4 else .accept len)
            6000).readAvailable 2 0 (.value ['1'] true)).state).sock.calls = 4 := by
  refine ⟨by decide, by decide, by decide, ?_⟩
  intro fuel k
  have hidle := (writeReadyTimes_idle fuel 0 k
    ((DemoHandler.new (fun k len => if k = 0 then .accept 4 else .accept len)
      6000).readAvailable 2 0 (.value ['1'] true)).state (by decide)).1
  rw [hidle]
  exact ⟨by decide, by decide⟩

/-! ### Partial accepts and errors inside the loop -/

/-- C4 (amended): the request is decoded by `std::stoi`, which has no
"malformed request" result.  When `stoi` throws on the text accumulated for the
stream at end-of-input (no digit after optional white space and sign, or a value
outside `int`), the exception is not caught: the callback does not return, and
no call at all is made on the socket, so no write is issued on the stream. -/
theorem readAvailable_undecodable_request (fuel : Nat) (h : DemoHandler) (id : StreamId)
    (data : Buf) (str : List Char) (e : StoiError)
    (hacc : (((h.input_ id).getD ⟨⟨none⟩, false⟩).first.append (some data)).head = some str)
    (hbad : stoi str = .error e) :
    (h.readAvailable fuel id (.value data true)).isTerminated = true
    ∧ (h.readAvailable fuel id (.value data true)).isReturned = false
    ∧ (h.readAvailable fuel id (.value data true)).state.sock.calls = h.sock.calls := by
  unfold DemoHandler.readAvailable DemoHandler.sendBytes
  simp only [if_true, Bool.not_true, Bool.false_eq_true, if_false, IOBufQueue.move,
    DemoHandler.setInput, hacc, hbad, DemoHandler.store, Outcome.isTerminated,
    Outcome.isReturned, Outcome.state, and_self]

/-- C4, an instance: the request `abc` has no digit; the process ends in the
callback and the socket has seen no call. -/
theorem readAvailable_undecodable_request_witness :
    ((DemoHandler.new acceptAll 6000).readAvailable 2 0
        (.value ['a', 'b', 'c'] true)).isTerminated = true
    ∧ ((DemoHandler.new acceptAll 6000).readAvailable 2 0
        (.value ['a', 'b', 'c'] true)).isReturned = false
    ∧ ((DemoHandler.new acceptAll 6000).readAvailable 2 0
        (.value ['a', 'b', 'c'] true)).state.sock.calls = (DemoHandler.new acceptAll 6000).sock.calls :=
  readAvailable_undecodable_request 2 (DemoHandler.new acceptAll 6000) 0 ['a', 'b', 'c']
    ['a', 'b', 'c'] .invalid_argument rfl rfl

/-- C4 as stated fails: the payload `12a` is not a string of digits, yet `stoi`
reads it as 12 and the server answers with one write of 120 bytes carrying the
end-of-stream flag; the payload ` 12` (leading space) is answered the same way,
and `-5` is read as -5 without any failure. -/
theorem readAvailable_answers_12a :
    stoi ['1', '2', 'a'] = .ok 12
    ∧ ((DemoHandler.new acceptAll 6000).readAvailable 2 0
        (.value ['1', '2', 'a'] true)).isReturned = true
    ∧ offers ((DemoHandler.new acceptAll 6000).readAvailable 2 0
        (.value ['1', '2', 'a'] true)).state.sock.calls = [(120, true, false)]
    ∧ offers ((DemoHandler.new acceptAll 6000).readAvailable 2 0
        (.value [' ', '1', '2'] true)).state.sock.calls = [(120, true, false)]
    ∧ stoi ['-', '5'] = .ok (-5)
    ∧ ((DemoHandler.new acceptAll 6000).readAvailable 2 0
        (.value ['-', '5'] true)).isReturned = true := by
  refine ⟨rfl, by decide, by decide, by decide, rfl, by decide⟩

/-- C5: for every count `n` that fits an `int`, a client started with the
decimal text of `n` puts exactly that text on the wire (one write, nothing
before or after it), and the server's decoder `stoi` reads `n` back from it; the
client's own `bytes_val_` is `n` as well. -/
theorem request_round_trip (n : Nat) (lat plr : List Char) (respond : Nat → Nat → Decision)
    (streamId : StreamId) (now : Int) (hn : (n : Int) ≤ INT_MAX) :
    stoi (encode n) = .ok (n : Int)
    ∧ ∃ c : DemoClient, DemoClient.new lat plr (encode n) respond = .ok c
        ∧ c.bytes_val_ = (n : Int)
        ∧ writtenBufs (c.start streamId now).state.quicClient_.calls = [encode n]
        ∧ (writtenBufs (c.start streamId now).state.quicClient_.calls).map stoi
            = [.ok (n : Int)] := by
  have hs := stoi_encode n hn
  refine ⟨hs, ?_⟩
  unfold DemoClient.new
  rw [hs]
  refine ⟨_, rfl, rfl, ?_⟩
  have hw : writtenBufs ((DemoClient.start (DemoClient.init lat plr (encode n) (n : Int) respond)
      streamId now).state.quicClient_.calls) = [encode n] := by
    unfold DemoClient.init
    unfold DemoClient.start DemoClient.sendMessage QuicSocket.writeChain
    simp only [mapSet, if_true, Option.getD, IOBufQueue.append, IOBufQueue.move,
      QuicSocket.fresh, writeCount, List.filter_nil, List.length_nil, List.nil_append]
    cases respond 0 (encode n).length with
    | fail => simp [Outcome.state, writtenBufs]
    | accept k =>
      by_cases hk : (encode n).length ≤ k
      · simp [hk, Outcome.state, writtenBufs]
      · simp [hk, Outcome.state, writtenBufs, QuicSocket.notifyPendingWriteOnStream]
  rw [hw]
  exact ⟨rfl, by simp [hs]⟩

/-- C5, an instance: the count 100. -/
theorem request_round_trip_witness :
    stoi (encode 100) = .ok ((100 : Nat) : Int)
    ∧ ∃ c : DemoClient, DemoClient.new ['1', '0'] ['0'] (encode 100) acceptAll = .ok c
        ∧ c.bytes_val_ = ((100 : Nat) : Int)
        ∧ writtenBufs (c.start 0 5).state.quicClient_.calls = [encode 100]
        ∧ (writtenBufs (c.start 0 5).state.quicClient_.calls).map stoi
            = [.ok ((100 : Nat) : Int)] :=
  request_round_trip 100 ['1', '0'] ['0'] acceptAll 0 5 (by decide)

/-! ## The client's byte counter -/

/-- A delivery that leaves the stream's counter below `bytes_val_`. -/
theorem readAvailable_below (c : DemoClient) (id : StreamId) (len : Nat) (now : Int)
    (h : ¬ c.bytes_val_ ≤ wrapInt (c.counted id + len)) :
    (c.readAvailable id (.data len) now).state.completed = c.completed
    ∧ (c.readAvailable id (.data len) now).state.log = c.log
    ∧ (c.readAvailable id (.data len) now).state.counted id = wrapInt (c.counted id + len)
    ∧ (c.readAvailable id (.data len) now).state.sum = wrapInt (c.sum + len)
    ∧ (c.readAvailable id (.data len) now).state.bytes_val_ = c.bytes_val_ := by
  unfold DemoClient.counted at h
  unfold DemoClient.readAvailable
  simp only [ge_iff_le, h, if_false, Outcome.state, DemoClient.counted, mapSet, if_true,
    and_self]

/-- A delivery that brings the stream's counter to `bytes_val_` or beyond. -/
theorem readAvailable_reach (c : DemoClient) (id : StreamId) (len : Nat) (now : Int)
    (h : c.bytes_val_ ≤ wrapInt (c.counted id + len)) :
    (c.readAvailable id (.data len) now).state.completed = true
    ∧ (c.readAvailable id (.data len) now).state.log
        = c.log ++ [.rate c.lat_ c.plr_ ((c._start_time id).getD 0) now
            (wrapInt (c.counted id + len)) (wrapInt (c.counted id + len) * 8 * 1000)
            (1024 * 1024 * wrapInt64 (now - (c._start_time id).getD 0))]
    ∧ (c.readAvailable id (.data len) now).state.counted id = 0
    ∧ (c.readAvailable id (.data len) now).state.sum = wrapInt (c.sum + len)
    ∧ (c.readAvailable id (.data len) now).state.bytes_val_ = c.bytes_val_ := by
  unfold DemoClient.counted at h
  unfold DemoClient.readAvailable
  simp only [ge_iff_le, h, if_true, Outcome.state, DemoClient.counted, mapErase, and_self]

/-- `completed` is never reset by a delivery. -/
theorem deliver_completed_mono (id : StreamId) (ds : List (Nat × Int)) :
    ∀ c : DemoClient, c.completed = true → (c.deliver id ds).completed = true := by
  induction ds with
  | nil => intro c h; exact h
  | cons d rest ih =>
    intro c h
    obtain ⟨len, now⟩ := d
    unfold DemoClient.deliver
    apply ih
    by_cases hr : c.bytes_val_ ≤ wrapInt (c.counted id + len)
    · exact (readAvailable_reach c id len now hr).1
    · rw [(readAvailable_below c id len now hr).1]; exact h

/-- Before the first completion, `completed` tells whether the counted bytes
have reached `bytes_val_`. -/
theorem deliver_completed_iff (n : Nat) (id : StreamId) (ds : List (Nat × Int)) :
    ∀ (c : DemoClient) (acc : Nat), c.completed = false → c.counted id = (acc : Int) →
      acc < n → c.bytes_val_ = (n : Int) →
      ((acc + deliveredTotal ds : Nat) : Int) ≤ INT_MAX →
      ((c.deliver id ds).completed = true ↔ n ≤ acc + deliveredTotal ds) := by
  unfold INT_MAX
  induction ds with
  | nil =>
    intro c acc hc _ hlt _ _
    simp [DemoClient.deliver, deliveredTotal, hc]
    omega
  | cons d rest ih =>
    intro c acc hc hacc hlt hval hfit
    obtain ⟨len, now⟩ := d
    have htot : deliveredTotal ((len, now) :: rest) = len + deliveredTotal rest := by
      simp [deliveredTotal]
    rw [htot] at hfit ⊢
    have hw : wrapInt (c.counted id + len) = ((acc + len : Nat) : Int) := by
      rw [hacc, wrapInt_id] <;> push_cast <;> omega
    unfold DemoClient.deliver
    by_cases hr : c.bytes_val_ ≤ wrapInt (c.counted id + len)
    · have hdone := deliver_completed_mono id rest _ (readAvailable_reach c id len now hr).1
      rw [hw, hval] at hr
      constructor
      · intro _; omega
      · intro _; exact hdone
    · obtain ⟨h1, _, h3, _, h5⟩ := readAvailable_below c id len now hr
      rw [hw] at h3
      rw [hw, hval] at hr
      have := ih (c.readAvailable id (.data len) now).state (acc + len) (by rw [h1]; exact hc) h3
        (by omega) (by rw [h5]; exact hval) (by push_cast at hfit ⊢; omega)
      rw [this]
      omega

theorem deliveredTotal_take_le (ds : List (Nat × Int)) (k : Nat) :
    deliveredTotal (ds.take k) ≤ deliveredTotal ds := by
  have h : deliveredTotal ds = deliveredTotal (ds.take k) + deliveredTotal (ds.drop k) := by
    unfold deliveredTotal
    rw [← List.sum_append, ← List.map_append, List.take_append_drop]
  omega

/-- What the constructor yields for the decimal text of a count within `int`. -/
theorem new_encode (n : Nat) (lat plr : List Char) (respond : Nat → Nat → Decision)
    (c : DemoClient) (hfit : (n : Int) ≤ INT_MAX)
    (hc : DemoClient.new lat plr (encode n) respond = .ok c) :
    c.bytes_val_ = (n : Int) ∧ c.completed = false ∧ c.counted 0 = 0 ∧ c.log = []
    ∧ c.sum = 0 ∧ ∀ id, c.counted id = 0 := by
  unfold DemoClient.new at hc
  rw [stoi_encode n hfit] at hc
  injection hc with hc
  subst hc
  exact ⟨rfl, rfl, rfl, rfl, rfl, fun _ => rfl⟩

/-- C6 (amended): the client's target is the requested count `n` itself, not
`10 * n`.  For a client built from the decimal text of `n > 0` and deliveries
whose counted lengths stay within `int`, `completed` is true after the first `k`
deliveries exactly when the bytes counted in them have reached `n`: it is false
after every delivery at which the count is below `n`, and is set at the first
delivery at which the count is `n` or more. -/
theorem completion_at_requested_count (n : Nat) (lat plr : List Char)
    (respond : Nat → Nat → Decision) (id : StreamId) (ds : List (Nat × Int)) (k : Nat)
    (c : DemoClient) (hn : 0 < n) (hfit : (n : Int) ≤ INT_MAX)
    (hc : DemoClient.new lat plr (encode n) respond = .ok c)
    (hsum : ((deliveredTotal ds : Nat) : Int) ≤ INT_MAX) :
    ((c.deliver id (ds.take k)).completed = true ↔ n ≤ deliveredTotal (ds.take k)) := by
  obtain ⟨hval, hcomp, _, _, _, hcnt⟩ := new_encode n lat plr respond c hfit hc
  have hle := deliveredTotal_take_le ds k
  have h := deliver_completed_iff n id (ds.take k) c 0 hcomp (by simpa using hcnt id) hn hval
    (by unfold INT_MAX at hsum ⊢; push_cast; omega)
  simpa using h

/-- C6, an instance: request 100, deliveries of 60, 40 and 900 bytes; after the
first two deliveries `completed` is true exactly when 100 bytes are counted. -/
theorem completion_at_requested_count_witness :
    (((DemoClient.init ['1', '0'] ['0'] (encode 100) 100 acceptAll).deliver 0
        ([(60, 7), (40, 8), (900, 9)].take 2)).completed = true
      ↔ 100 ≤ deliveredTotal ([(60, 7), (40, 8), (900, 9)].take 2)) :=
  completion_at_requested_count 100 ['1', '0'] ['0'] acceptAll 0
    [(60, 7), (40, 8), (900, 9)] 2 (DemoClient.init ['1', '0'] ['0'] (encode 100) 100 acceptAll)
    (by decide) (by decide) rfl (by decide)

/-- C6 as stated fails: a client that requested 100 bytes is `completed` after a
single delivery of 100 bytes, when 100 and not 1000 bytes have been received. -/
theorem completion_before_ten_times :
    DemoClient.new ['1', '0'] ['0'] ['1', '0', '0'] acceptAll
        = .ok (DemoClient.init ['1', '0'] ['0'] ['1', '0', '0'] 100 acceptAll)
    ∧ ((DemoClient.init ['1', '0'] ['0'] ['1', '0', '0'] 100 acceptAll).deliver 0
        [(100, 7)]).completed = true
    ∧ deliveredTotal [((100 : Nat), (7 : Int))] < 10 * 100 :=
  ⟨rfl, by decide, by decide⟩

/-- Deliveries of length zero on a stream whose counter is at zero change
nothing that is reported, when the target is positive. -/
theorem deliver_zero_lengths (n : Nat) (id : StreamId) (hn : 0 < n) (ds : List (Nat × Int)) :
    ∀ c : DemoClient, (∀ d ∈ ds, d.1 = 0) → c.bytes_val_ = (n : Int) → c.counted id = 0 →
      -2147483648 ≤ c.sum → c.sum ≤ 2147483647 →
      (c.deliver id ds).log = c.log ∧ (c.deliver id ds).sum = c.sum
      ∧ (c.deliver id ds).completed = c.completed := by
  induction ds with
  | nil => intro c _ _ _ _ _; exact ⟨rfl, rfl, rfl⟩
  | cons d rest ih =>
    intro c hz hval hcnt hlo hhi
    obtain ⟨len, now⟩ := d
    have hlen : len = 0 := hz (len, now) (List.mem_cons_self _ _)
    subst hlen
    have hw : wrapInt (c.counted id + ((0 : Nat) : Int)) = 0 := by
      rw [hcnt]; decide
    have hr : ¬ c.bytes_val_ ≤ wrapInt (c.counted id + ((0 : Nat) : Int)) := by
      rw [hw, hval]; omega
    obtain ⟨h1, h2, h3, h4, h5⟩ := readAvailable_below c id 0 now hr
    have hsum : (c.readAvailable id (.data 0) now).state.sum = c.sum := by
      rw [h4, wrapInt_id] <;> push_cast <;> omega
    obtain ⟨i1, i2, i3⟩ := ih (c.readAvailable id (.data 0) now).state
      (fun d hd => hz d (List.mem_cons_of_mem _ hd)) (by rw [h5]; exact hval)
      (by rw [h3]; exact hw) (by rw [hsum]; exact hlo) (by rw [hsum]; exact hhi)
    unfold DemoClient.deliver
    exact ⟨by rw [i1, h2], by rw [i2, hsum], by rw [i3, h1]⟩

theorem deliveredTotal_zero (ds : List (Nat × Int)) (h : deliveredTotal ds = 0) :
    ∀ d ∈ ds, d.1 = 0 := by
  induction ds with
  | nil => intro d hd; cases hd
  | cons x rest ih =>
    have hx : deliveredTotal (x :: rest) = x.1 + deliveredTotal rest := by
      simp [deliveredTotal]
    rw [hx] at h
    intro d hd
    rcases List.mem_cons.1 hd with rfl | hd
    · omega
    · exact ih (by omega) d hd

/-- Deliveries that bring the counter from `acc` to exactly the target `n`. -/
theorem deliver_exact_total (n : Nat) (id : StreamId) (hn : 0 < n)
    (hfit : (n : Int) ≤ INT_MAX) (ds : List (Nat × Int)) :
    ∀ (c : DemoClient) (acc : Nat), c.bytes_val_ = (n : Int) → c.counted id = (acc : Int) →
      c.sum = (acc : Int) → acc < n → acc + deliveredTotal ds = n →
      (∃ line, (c.deliver id ds).log = c.log ++ [line] ∧ line.reportedBytes = some (n : Int))
      ∧ (c.deliver id ds).sum = (n : Int) ∧ (c.deliver id ds).completed = true := by
  unfold INT_MAX at hfit
  induction ds with
  | nil =>
    intro c acc _ _ _ hlt hsum
    simp [deliveredTotal] at hsum
    omega
  | cons d rest ih =>
    intro c acc hval hcnt hs hlt hsum
    obtain ⟨len, now⟩ := d
    have htot : deliveredTotal ((len, now) :: rest) = len + deliveredTotal rest := by
      simp [deliveredTotal]
    rw [htot] at hsum
    have hw : wrapInt (c.counted id + len) = ((acc + len : Nat) : Int) := by
      rw [hcnt, wrapInt_id] <;> push_cast <;> omega
    have hwsum : wrapInt (c.sum + len) = ((acc + len : Nat) : Int) := by
      rw [hs, wrapInt_id] <;> push_cast <;> omega
    unfold DemoClient.deliver
    by_cases hr : c.bytes_val_ ≤ wrapInt (c.counted id + len)
    · obtain ⟨h1, h2, h3, h4, h5⟩ := readAvailable_reach c id len now hr
      rw [hw, hval] at hr
      have hlen : acc + len = n := by omega
      have hrest : deliveredTotal rest = 0 := by omega
      rw [hw, hlen] at h2
      rw [hwsum, hlen] at h4
      obtain ⟨i1, i2, i3⟩ := deliver_zero_lengths n id hn rest
        (c.readAvailable id (.data len) now).state (deliveredTotal_zero rest hrest)
        (by rw [h5]; exact hval) h3 (by rw [h4]; omega) (by rw [h4]; omega)
      refine ⟨⟨.rate c.lat_ c.plr_ ((c._start_time id).getD 0) now (n : Int)
        ((n : Int) * 8 * 1000) (1024 * 1024 * wrapInt64 (now - (c._start_time id).getD 0)),
        ?_, rfl⟩, by rw [i2, h4], by rw [i3, h1]⟩
      rw [i1, h2]
    · obtain ⟨h1, h2, h3, h4, h5⟩ := readAvailable_below c id len now hr
      rw [hw] at h3
      rw [hwsum] at h4
      rw [hw, hval] at hr
      obtain ⟨⟨line, j1, j2⟩, j3, j4⟩ := ih (c.readAvailable id (.data len) now).state (acc + len)
        (by rw [h5]; exact hval) h3 h4 (by omega) (by omega)
      exact ⟨⟨line, by rw [j1, h2], j2⟩, j3, j4⟩

/-- C7 (amended): nothing in `readAvailable` looks at `completed`; on completion
the stream's counter is erased and the next delivery restarts it from zero, so a
completion line is logged each time the restarted counter reaches the target.
For a client built from the decimal text of a positive target `n` and deliveries
whose counted lengths add up to exactly `n`, exactly one completion line is
logged, it reports `bytes` equal to `n`, and afterwards `completed` is true and
`sum` equals `n`. -/
theorem completion_once_on_exact_total (n : Nat) (lat plr : List Char)
    (respond : Nat → Nat → Decision) (id : StreamId) (ds : List (Nat × Int)) (c : DemoClient)
    (hn : 0 < n) (hfit : (n : Int) ≤ INT_MAX)
    (hc : DemoClient.new lat plr (encode n) respond = .ok c)
    (hsum : deliveredTotal ds = n) :
    completions (c.deliver id ds).log = 1
    ∧ (c.deliver id ds).log.map LogLine.reportedBytes = [some (n : Int)]
    ∧ (c.deliver id ds).completed = true
    ∧ (c.deliver id ds).sum = (n : Int) := by
  obtain ⟨hval, _, _, hlog, hs, hcnt⟩ := new_encode n lat plr respond c hfit hc
  obtain ⟨⟨line, h1, h2⟩, h3, h4⟩ := deliver_exact_total n id hn hfit ds c 0 hval
    (by simpa using hcnt id) (by simpa using hs) hn (by omega)
  rw [hlog, List.nil_append] at h1
  rw [h1]
  refine ⟨?_, by simp [h2], h4, h3⟩
  cases line with
  | rate a b s t nb rn rd => rfl
  | unmeasured a b => simp [LogLine.reportedBytes] at h2

/-- C7, an instance: target 100 reached by deliveries of 40, 60 and 0 bytes. -/
theorem completion_once_on_exact_total_witness :
    completions ((DemoClient.init ['1', '0'] ['0'] (encode 100) 100 acceptAll).deliver 0
        [(40, 7), (60, 8), (0, 9)]).log = 1
    ∧ ((DemoClient.init ['1', '0'] ['0'] (encode 100) 100 acceptAll).deliver 0
        [(40, 7), (60, 8), (0, 9)]).log.map LogLine.reportedBytes = [some ((100 : Nat) : Int)]
    ∧ ((DemoClient.init ['1', '0'] ['0'] (encode 100) 100 acceptAll).deliver 0
        [(40, 7), (60, 8), (0, 9)]).completed = true
    ∧ ((DemoClient.init ['1', '0'] ['0'] (encode 100) 100 acceptAll).deliver 0
        [(40, 7), (60, 8), (0, 9)]).sum = ((100 : Nat) : Int) :=
  completion_once_on_exact_total 100 ['1', '0'] ['0'] acceptAll 0 [(40, 7), (60, 8), (0, 9)]
    (DemoClient.init ['1', '0'] ['0'] (encode 100) 100 acceptAll) (by decide) (by decide) rfl
    (by decide)

/-- C7 as stated fails: with target 100, two deliveries of 100 bytes on the same
stream log two completion lines; the first completion erases the stream's
counter, and a following delivery of 30 bytes leaves it at 30, below the 100 it
had reached. -/
theorem completion_fires_twice :
    completions ((DemoClient.init ['1', '0'] ['0'] ['1', '0', '0'] 100 acceptAll).deliver 0
        [(100, 7), (100, 9)]).log = 2
    ∧ ((DemoClient.init ['1', '0'] ['0'] ['1', '0', '0'] 100 acceptAll).deliver 0
        [(100, 7)])._bytes_read 0 = none
    ∧ ((DemoClient.init ['1', '0'] ['0'] ['1', '0', '0'] 100 acceptAll).deliver 0
        [(100, 7), (30, 9)])._bytes_read 0 = some 30 := by
  refine ⟨by decide, by decide, by decide⟩

/-! ## Connection end, connection error, and the throughput line -/

/-- C8: `onConnectionEnd` and `onConnectionError` set their flag, log the line
with `-1` in every field exactly when `completed` is false, and leave
`completed`, the per-stream counters, the start times, `sum` and the other flag
as they were; when `completed` is true nothing is logged. -/
theorem connection_end_or_error (c : DemoClient) :
    c.onConnectionEnd.log = c.log ++ (if c.completed then [] else [.unmeasured c.lat_ c.plr_])
    ∧ c.onConnectionEnd.connection_ended = true
    ∧ c.onConnectionEnd.connection_failed = c.connection_failed
    ∧ c.onConnectionEnd.completed = c.completed
    ∧ c.onConnectionEnd._bytes_read = c._bytes_read
    ∧ c.onConnectionEnd._start_time = c._start_time
    ∧ c.onConnectionEnd.sum = c.sum
    ∧ c.onConnectionError.log = c.log ++ (if c.completed then [] else [.unmeasured c.lat_ c.plr_])
    ∧ c.onConnectionError.connection_failed = true
    ∧ c.onConnectionError.connection_ended = c.connection_ended
    ∧ c.onConnectionError.completed = c.completed
    ∧ c.onConnectionError._bytes_read = c._bytes_read
    ∧ c.onConnectionError._start_time = c._start_time
    ∧ c.onConnectionError.sum = c.sum := by
  unfold DemoClient.onConnectionEnd DemoClient.onConnectionError
  cases h : c.completed <;> simp [h]

/-- C9 (amended): the completion branch has no test of the elapsed time.  Every
delivery that brings the counter to `bytes_val_` logs a completion line with the
real start, stop and byte count, the rate being `total_bytes * 8 * 1000` divided
by `1024 * 1024 * elapsed`; when the clock still shows the start time the
divisor is zero, and the line is logged all the same. -/
theorem completion_line_for_any_elapsed (c : DemoClient) (id : StreamId) (len : Nat) (now : Int)
    (h : c.bytes_val_ ≤ wrapInt (c.counted id + len)) :
    (c.readAvailable id (.data len) now).state.log
        = c.log ++ [.rate c.lat_ c.plr_ ((c._start_time id).getD 0) now
            (wrapInt (c.counted id + len)) (wrapInt (c.counted id + len) * 8 * 1000)
            (1024 * 1024 * wrapInt64 (now - (c._start_time id).getD 0))]
    ∧ (now = (c._start_time id).getD 0 →
        (c.readAvailable id (.data len) now).state.log
          = c.log ++ [.rate c.lat_ c.plr_ now now
              (wrapInt (c.counted id + len)) (wrapInt (c.counted id + len) * 8 * 1000) 0]) := by
  have h2 := (readAvailable_reach c id len now h).2.1
  refine ⟨h2, ?_⟩
  intro hnow
  rw [h2, ← hnow]
  have hz : wrapInt64 (now - now) = 0 := by
    rw [sub_self]; decide
  rw [hz]
  rfl

/-- C9, an instance: request 100, stream started at clock 5, 100 bytes delivered
at clock 5. -/
theorem completion_line_for_any_elapsed_witness :
    (((DemoClient.init ['1', '0'] ['0'] ['1', '0', '0'] 100 acceptAll).start 0 5).state.readAvailable
        0 (.data 100) 5).state.log
      = ((DemoClient.init ['1', '0'] ['0'] ['1', '0', '0'] 100 acceptAll).start 0 5).state.log
          ++ [.rate ['1', '0'] ['0'] 5 5 100 800000 0] :=
  (completion_line_for_any_elapsed
    ((DemoClient.init ['1', '0'] ['0'] ['1', '0', '0'] 100 acceptAll).start 0 5).state 0 100 5
    (by decide)).2 rfl

/-- C9 as stated fails: request 100, stream started at clock 5, the 100 bytes
delivered at clock 5.  The elapsed time is 0, and the line logged is a
completion line with start 5, stop 5, 100 bytes and a division by 0, not the
line with `-1` in every field. -/
theorem zero_elapsed_logs_a_rate :
    (((DemoClient.init ['1', '0'] ['0'] ['1', '0', '0'] 100 acceptAll).start 0 5).state.deliver 0
        [(100, 5)]).log = [.rate ['1', '0'] ['0'] 5 5 100 800000 0]
    ∧ (((DemoClient.init ['1', '0'] ['0'] ['1', '0', '0'] 100 acceptAll).start 0 5).state.deliver 0
        [(100, 5)]).log ≠ [.unmeasured ['1', '0'] ['0']] := by
  refine ⟨by decide, by decide⟩
